import Mathlib

/-!
Verification development for the pdfscan repository.

The Rust source is shallowly embedded: pure computations become Lean
functions, `f64` values produced by the statistics module are modelled as
exact rationals (all scores are built from natural-number keyword counts by
addition, `min`, multiplication and division), stateful code is modelled by
explicit state passing, and external library calls (the PDF parser, the
Unicode lowercase tables, the filesystem, the Pdfium backend) are oracles
passed as parameters.
-/

namespace PdfScan

/-! ## Embedding of `src/stats.rs` -/

/-- One entry of `Document` (src/stats.rs lines 37-42): a filename together
with its per-keyword occurrence counts (`keyword_counts: HashMap<String, usize>`),
modelled as an association list. -/
structure Document where
  filename : String
  keyword_counts : List (String × Nat)
deriving Repr

/-- Model of `doc.keyword_counts.get(k).unwrap_or(&0)`: association-list
lookup defaulting to `0` for absent keys. -/
def getCount (d : Document) (k : String) : Nat :=
  go d.keyword_counts
where
  go : List (String × Nat) → Nat
    | [] => 0
    | (k', v) :: rest => if k' = k then v else go rest

/-- The contribution one document adds to correlation cell `(i, j)` in the
co-occurrence pass of `calculate_correlations` (src/stats.rs lines 71-85):
`min(count_i, count_j)` when both counts are positive, else `0`. -/
def pairContribution (kws : List String) (i j : Nat) (d : Document) : Nat :=
  let c1 := getCount d (kws.getD i "")
  let c2 := getCount d (kws.getD j "")
  if 0 < c1 ∧ 0 < c2 then min c1 c2 else 0

/-- One iteration of the outer document loop of `calculate_correlations`
(src/stats.rs lines 71-85): for every upper-triangular index pair with both
counts positive, add `min(count1, count2)` to the accumulator matrix. -/
def corrStep (kws : List String) (m : Nat → Nat → ℚ) (d : Document) : Nat → Nat → ℚ :=
  fun i j =>
    if i < kws.length ∧ i < j ∧ j < kws.length ∧
        0 < getCount d (kws.getD i "") ∧ 0 < getCount d (kws.getD j "") then
      m i j + (min (getCount d (kws.getD i "")) (getCount d (kws.getD j "")) : ℚ)
    else m i j

/-- The accumulated (un-normalized) co-occurrence matrix after the document
loop of `calculate_correlations`, starting from the all-zero matrix set up
at src/stats.rs line 68. -/
def corrRaw (kws : List String) (docs : List Document) : Nat → Nat → ℚ :=
  docs.foldl (corrStep kws) (fun _ _ => 0)

/-- The normalization pass of `calculate_correlations` (src/stats.rs lines
88-95): every strict upper-triangular entry is divided by the document
count; other entries are untouched. -/
def normalizeCorr (n docCount : Nat) (m : Nat → Nat → ℚ) : Nat → Nat → ℚ :=
  fun i j => if i < j ∧ j < n then m i j / (docCount : ℚ) else m i j

/-- `KeywordAnalysis::calculate_correlations` (src/stats.rs lines 65-96):
accumulate per-document co-occurrence strengths, then normalize by the
document count unless the document list is empty. -/
def calculate_correlations (kws : List String) (docs : List Document) : Nat → Nat → ℚ :=
  if docs.isEmpty then corrRaw kws docs
  else normalizeCorr kws.length docs.length (corrRaw kws docs)

/-- Document D1 of the spec scenario: `{"apple": 3, "banana": 0}`. -/
def docD1 : Document := ⟨"D1", [("apple", 3), ("banana", 0)]⟩

/-- Document D2 of the spec scenario: `{"apple": 2, "banana": 4}`. -/
def docD2 : Document := ⟨"D2", [("apple", 2), ("banana", 4)]⟩

lemma corrRaw_foldl_apply (kws : List String) (docs : List Document)
    (i j : Nat) (hi : i < kws.length) (hij : i < j) (hj : j < kws.length) :
    ∀ m : Nat → Nat → ℚ,
      docs.foldl (corrStep kws) m i j
        = m i j + ((docs.map fun d => (pairContribution kws i j d : ℚ)).sum) := by
  induction docs with
  | nil => intro m; simp
  | cons d ds ih =>
    intro m
    simp only [List.foldl_cons, List.map_cons, List.sum_cons]
    rw [ih]
    have hstep : corrStep kws m d i j = m i j + (pairContribution kws i j d : ℚ) := by
      unfold corrStep pairContribution
      by_cases hc : 0 < getCount d (kws.getD i "") ∧ 0 < getCount d (kws.getD j "")
      · rw [if_pos ⟨hi, hij, hj, hc.1, hc.2⟩, if_pos hc]
        push_cast; ring
      · rw [if_neg (by tauto), if_neg hc]
        simp
    rw [hstep]; ring

lemma calculate_correlations_eq_avg (kws : List String) (docs : List Document)
    (i j : Nat) (hij : i < j) (hj : j < kws.length) :
    calculate_correlations kws docs i j
      = ((docs.map fun d => (pairContribution kws i j d : ℚ)).sum) / (docs.length : ℚ) := by
  have hi : i < kws.length := lt_trans hij hj
  unfold calculate_correlations
  by_cases hd : docs.isEmpty
  · rw [if_pos hd]
    rcases List.isEmpty_iff.mp hd with rfl
    simp [corrRaw]
  · rw [if_neg hd]
    unfold normalizeCorr corrRaw
    rw [if_pos ⟨hij, hj⟩, corrRaw_foldl_apply kws docs i j hi hij hj]
    simp

/-- **C1.** For every document list and keyword list, the correlation computed
by `calculate_correlations` for a pair `(i, j)` with `i < j` equals the sum
over all documents of `min(count_i, count_j)` (a document contributes `0`
unless both counts are positive, per `pairContribution`) divided by the total
number of documents; and on the spec scenario `D1 = {apple:3, banana:0}`,
`D2 = {apple:2, banana:4}` the correlation of `(apple, banana)` is `1`. -/
theorem correlation_is_normalized_min_sum (kws : List String) (docs : List Document)
    (i j : Nat) (hij : i < j) (hj : j < kws.length) :
    calculate_correlations kws docs i j
        = ((docs.map fun d => (pairContribution kws i j d : ℚ)).sum) / (docs.length : ℚ)
    ∧ calculate_correlations ["apple", "banana"] [docD1, docD2] 0 1 = 1 := by
  refine ⟨calculate_correlations_eq_avg kws docs i j hij hj, ?_⟩
  rw [calculate_correlations_eq_avg ["apple", "banana"] [docD1, docD2] 0 1
    (by norm_num) (by norm_num)]
  simp [pairContribution, getCount, getCount.go, docD1, docD2]
  norm_num

/-- Witness instantiating `correlation_is_normalized_min_sum` on the spec's
two-document scenario. -/
theorem correlation_is_normalized_min_sum_witness :
    calculate_correlations ["apple", "banana"] [docD1, docD2] 0 1 = 1 :=
  (correlation_is_normalized_min_sum ["apple", "banana"] [docD1, docD2] 0 1
    (by norm_num) (by norm_num)).2

/-- The score computed for one document by the weight loop of
`KeywordAnalysis::rank_documents` (src/stats.rs lines 101-119): for every
index pair `i < j`, when both counts are positive and the correlation is at
least the threshold, add `correlation(i,j) * min(count1, count2)`.  The inner
`enumerate().skip(i + 1)` loop is the `drop (i+1)` of the index range. -/
def docScore (kws : List String) (corr : Nat → Nat → ℚ) (threshold : ℚ)
    (d : Document) : ℚ :=
  (((List.range kws.length).map fun i =>
    ((((List.range kws.length).drop (i + 1)).map fun j =>
      if 0 < getCount d (kws.getD i "") ∧ 0 < getCount d (kws.getD j "") ∧
          threshold ≤ corr i j then
        corr i j * (min (getCount d (kws.getD i "")) (getCount d (kws.getD j "")) : ℚ)
      else 0)).sum)).sum

/-- Insertion step of the stable descending sort modelling
`ranked_docs.sort_by(|a, b| b.1.partial_cmp(&a.1)...)` (src/stats.rs line
126): Rust's `sort_by` is a stable sort, so the element `x` is placed after
every earlier element with a strictly larger score and before the rest. -/
def insertDesc (x : String × ℚ) : List (String × ℚ) → List (String × ℚ)
  | [] => [x]
  | y :: ys => if x.2 < y.2 then y :: insertDesc x ys else x :: y :: ys

/-- Stable descending sort by score (model of the stable `sort_by` at
src/stats.rs line 126; a stable sort is uniquely determined by its
comparator, so insertion sort is an exact model). -/
def sortDesc : List (String × ℚ) → List (String × ℚ)
  | [] => []
  | x :: xs => insertDesc x (sortDesc xs)

/-- `KeywordAnalysis::rank_documents` (src/stats.rs lines 99-128): map each
document to `(filename, score)` and stably sort by descending score. -/
def rank_documents (kws : List String) (corr : Nat → Nat → ℚ) (threshold : ℚ)
    (docs : List Document) : List (String × ℚ) :=
  sortDesc (docs.map fun d => (d.filename, docScore kws corr threshold d))

/-- The ranked-document section of the report (src/stats.rs lines 249-253):
`ranked_docs.iter().enumerate().take(20)` filtered to strictly positive
scores.  Entries are `(index, filename, score)`. -/
def reportEntries (ranked : List (String × ℚ)) : List (Nat × String × ℚ) :=
  (ranked.enum.take 20).filter fun e => decide (0 < e.2.2)

lemma sum_map_range (f : Nat → ℚ) (n : Nat) :
    ((List.range n).map f).sum = ∑ i in Finset.range n, f i := by
  induction n with
  | zero => simp
  | succ n ih => rw [List.range_succ, Finset.sum_range_succ, ← ih]; simp

lemma sum_map_drop_range (g : Nat → ℚ) (k n : Nat) :
    (((List.range n).drop k).map g).sum = ∑ j in Finset.Ico k n, g j := by
  induction n with
  | zero => simp
  | succ n ih =>
    rcases le_or_lt k n with hk | hk
    · rw [List.range_succ, List.drop_append_of_le_length (by simpa using hk),
        Finset.sum_Ico_succ_top hk, ← ih]
      simp
    · rw [List.drop_eq_nil_of_le (by simpa using hk), Finset.Ico_eq_empty (by omega)]
      simp

lemma insertDesc_perm (x : String × ℚ) (l : List (String × ℚ)) :
    (insertDesc x l).Perm (x :: l) := by
  induction l with
  | nil => simp [insertDesc]
  | cons y ys ih =>
    unfold insertDesc
    by_cases h : x.2 < y.2
    · rw [if_pos h]
      exact ((ih.cons y).trans (List.Perm.swap x y ys))
    · rw [if_neg h]

lemma sortDesc_perm (l : List (String × ℚ)) : (sortDesc l).Perm l := by
  induction l with
  | nil => simp [sortDesc]
  | cons x xs ih => exact (insertDesc_perm x (sortDesc xs)).trans (ih.cons x)

lemma insertDesc_pairwise (x : String × ℚ) (l : List (String × ℚ))
    (h : l.Pairwise fun a b => b.2 ≤ a.2) :
    (insertDesc x l).Pairwise fun a b => b.2 ≤ a.2 := by
  induction l with
  | nil => simp [insertDesc]
  | cons y ys ih =>
    rcases List.pairwise_cons.mp h with ⟨hy, hys⟩
    unfold insertDesc
    by_cases hxy : x.2 < y.2
    · rw [if_pos hxy]
      refine List.pairwise_cons.mpr ⟨?_, ih hys⟩
      intro z hz
      rcases List.mem_cons.mp ((insertDesc_perm x ys).mem_iff.mp hz) with hz | hz
      · rw [hz]; exact le_of_lt hxy
      · exact hy z hz
    · rw [if_neg hxy]
      refine List.pairwise_cons.mpr ⟨?_, h⟩
      intro z hz
      rcases List.mem_cons.mp hz with hz | hz
      · rw [hz]; exact le_of_not_lt hxy
      · exact le_trans (hy z hz) (le_of_not_lt hxy)

lemma sortDesc_pairwise (l : List (String × ℚ)) :
    (sortDesc l).Pairwise fun a b => b.2 ≤ a.2 := by
  induction l with
  | nil => simp [sortDesc]
  | cons x xs ih => exact insertDesc_pairwise x (sortDesc xs) ih

lemma insertDesc_filter_ne (x : String × ℚ) (l : List (String × ℚ)) (s : ℚ)
    (hx : x.2 ≠ s) :
    (insertDesc x l).filter (fun p => decide (p.2 = s))
      = l.filter (fun p => decide (p.2 = s)) := by
  induction l with
  | nil => simp [insertDesc, hx]
  | cons y ys ih =>
    unfold insertDesc
    by_cases hxy : x.2 < y.2
    · rw [if_pos hxy]
      by_cases hy : y.2 = s
      · simp [List.filter, hy, ih]
      · simp [List.filter, hy, ih]
    · rw [if_neg hxy]
      simp [List.filter, hx]

lemma insertDesc_filter_eq (x : String × ℚ) (l : List (String × ℚ)) (s : ℚ)
    (hx : x.2 = s) :
    (insertDesc x l).filter (fun p => decide (p.2 = s))
      = x :: l.filter (fun p => decide (p.2 = s)) := by
  induction l with
  | nil => simp [insertDesc, hx]
  | cons y ys ih =>
    unfold insertDesc
    by_cases hxy : x.2 < y.2
    · rw [if_pos hxy]
      have hy : y.2 ≠ s := by rw [← hx]; exact ne_of_gt hxy
      simp [List.filter, hy, ih]
    · rw [if_neg hxy]
      simp [List.filter, hx]

lemma sortDesc_filter_stable (l : List (String × ℚ)) (s : ℚ) :
    (sortDesc l).filter (fun p => decide (p.2 = s))
      = l.filter (fun p => decide (p.2 = s)) := by
  induction l with
  | nil => simp [sortDesc]
  | cons x xs ih =>
    show (insertDesc x (sortDesc xs)).filter _ = _
    by_cases hx : x.2 = s
    · rw [insertDesc_filter_eq x (sortDesc xs) s hx, ih]
      simp [List.filter, hx]
    · rw [insertDesc_filter_ne x (sortDesc xs) s hx, ih]
      simp [List.filter, hx]

/-- **C4.** For every analysis run: each document's ranking score equals the
sum over keyword pairs `(i, j)` with `i < j` whose two counts are positive
and whose correlation is at least the threshold of
`correlation(i,j) * min(count_i, count_j)`; `rank_documents` returns a
permutation of the `(filename, score)` list sorted by descending score with
ties kept in input order (stable sort, expressed by preservation of every
equal-score fiber); and no entry of the final ranked report has score `0`
(its scores are strictly positive). -/
theorem rank_documents_spec (kws : List String) (corr : Nat → Nat → ℚ)
    (threshold : ℚ) (docs : List Document) :
    (∀ d : Document, docScore kws corr threshold d
        = ∑ i in Finset.range kws.length, ∑ j in Finset.Ico (i + 1) kws.length,
            (if 0 < getCount d (kws.getD i "") ∧ 0 < getCount d (kws.getD j "") ∧
                threshold ≤ corr i j then
              corr i j * (min (getCount d (kws.getD i "")) (getCount d (kws.getD j "")) : ℚ)
            else 0))
    ∧ (rank_documents kws corr threshold docs).Perm
        (docs.map fun d => (d.filename, docScore kws corr threshold d))
    ∧ (rank_documents kws corr threshold docs).Pairwise (fun a b => b.2 ≤ a.2)
    ∧ (∀ s : ℚ, (rank_documents kws corr threshold docs).filter (fun p => decide (p.2 = s))
        = (docs.map fun d => (d.filename, docScore kws corr threshold d)).filter
            (fun p => decide (p.2 = s)))
    ∧ (∀ e ∈ reportEntries (rank_documents kws corr threshold docs), 0 < e.2.2) := by
  refine ⟨?_, sortDesc_perm _, sortDesc_pairwise _, fun s => sortDesc_filter_stable _ s, ?_⟩
  · intro d
    unfold docScore
    rw [sum_map_range]
    exact Finset.sum_congr rfl fun i _ => sum_map_drop_range _ (i + 1) kws.length
  · intro e he
    have := List.of_mem_filter he
    simpa using this

lemma getCount_docD1_banana : getCount docD1 "banana" = 0 := by decide

lemma getCount_docD2_apple : getCount docD2 "apple" = 2 := by decide

lemma getCount_docD2_banana : getCount docD2 "banana" = 4 := by decide

lemma docScore_docD1_eval :
    docScore ["apple", "banana"]
      (calculate_correlations ["apple", "banana"] [docD1, docD2]) (1/10) docD1 = 0 := by
  unfold docScore
  simp [List.range_succ, getCount_docD1_banana]

lemma docScore_docD2_eval :
    docScore ["apple", "banana"]
      (calculate_correlations ["apple", "banana"] [docD1, docD2]) (1/10) docD2 = 2 := by
  have hcorr : calculate_correlations ["apple", "banana"] [docD1, docD2] 0 1 = 1 :=
    correlation_is_normalized_min_sum_witness
  unfold docScore
  simp [List.range_succ, getCount_docD2_apple, getCount_docD2_banana, hcorr]
  norm_num

lemma rank_documents_scenario_eval :
    rank_documents ["apple", "banana"]
        (calculate_correlations ["apple", "banana"] [docD1, docD2]) (1/10) [docD1, docD2]
      = [("D2", 2), ("D1", 0)] := by
  unfold rank_documents
  simp only [List.map_cons, List.map_nil, docScore_docD1_eval, docScore_docD2_eval]
  show sortDesc [(docD1.filename, 0), (docD2.filename, 2)] = _
  simp [sortDesc, insertDesc, docD1, docD2]

/-- Witness instantiating `rank_documents_spec` on the spec's two-document
scenario with threshold `1/10`: the single report entry is `D2` with
score `2` (at rank index 0). -/
theorem rank_documents_spec_witness :
    0 < ((0 : Nat), ("D2" : String), (2 : ℚ)).2.2 := by
  refine (rank_documents_spec ["apple", "banana"]
    (calculate_correlations ["apple", "banana"] [docD1, docD2]) (1/10)
    [docD1, docD2]).2.2.2.2 (0, "D2", 2) ?_
  rw [rank_documents_scenario_eval]
  simp [reportEntries, List.filter]

/-- Outcome of one `stats::run` invocation (src/stats.rs lines 168-260),
recording the externally visible effects: the returned result, which PDF
files were read for analysis, and the report write (output path together
with the ranked entries it lists), if one happened. -/
structure RunOutcome where
  result : Except String Unit
  filesRead : List String
  reportWritten : Option (String × List (Nat × String × ℚ))

/-- `stats::run` (src/stats.rs lines 168-260).  `collectPaths` is the oracle
for `collect_pdf_paths` (filesystem walk, extension filter, sort, dedup) and
`extractCounts` the oracle for `extract_keyword_counts`; a per-file
extraction error degrades to an empty count map (lines 204-210).  The
keyword check (lines 174-178) and the empty-corpus check (lines 183-187)
return errors before any file is read or report written. -/
def run (collectPaths : List String → List String)
    (extractCounts : String → List String → Except String (List (String × Nat)))
    (input_paths keywords : List String) (output_file : String)
    (correlation_threshold : ℚ) : RunOutcome :=
  if keywords.isEmpty then
    { result := .error "No keywords provided for analysis",
      filesRead := [], reportWritten := none }
  else
    let pdf_paths := collectPaths input_paths
    if pdf_paths.isEmpty then
      { result := .error "No PDF files found in the provided paths",
        filesRead := [], reportWritten := none }
    else
      let documents : List Document := pdf_paths.map fun p =>
        { filename := p,
          keyword_counts :=
            match extractCounts p keywords with
            | .ok counts => counts
            | .error _ => [] }
      let corr := calculate_correlations keywords documents
      let ranked := rank_documents keywords corr correlation_threshold documents
      { result := .ok (), filesRead := pdf_paths,
        reportWritten := some (output_file, reportEntries ranked) }

/-- **C7.** An analysis invocation with an empty keyword list fails
immediately with an error before any work begins: no input file is read and
no report file is written. -/
theorem run_empty_keywords_fails_before_work
    (collectPaths : List String → List String)
    (extractCounts : String → List String → Except String (List (String × Nat)))
    (input_paths : List String) (output_file : String) (t : ℚ) :
    (run collectPaths extractCounts input_paths [] output_file t).result
        = .error "No keywords provided for analysis"
    ∧ (run collectPaths extractCounts input_paths [] output_file t).filesRead = []
    ∧ (run collectPaths extractCounts input_paths [] output_file t).reportWritten = none :=
  ⟨rfl, rfl, rfl⟩

/-- **C9.** The ranked-document section of the generated report contains at
most 20 entries: `run` writes `reportEntries` of the ranked list, and
`reportEntries` (the `enumerate().take(20)` loop at src/stats.rs lines
249-253) never exceeds 20 entries. -/
theorem report_has_at_most_20_entries
    (collectPaths : List String → List String)
    (extractCounts : String → List String → Except String (List (String × Nat)))
    (input_paths keywords : List String) (output_file : String) (t : ℚ) :
    (∀ ranked : List (String × ℚ), (reportEntries ranked).length ≤ 20)
    ∧ ∀ f es, (run collectPaths extractCounts input_paths keywords output_file t).reportWritten
          = some (f, es) → es.length ≤ 20 := by
  have hlen : ∀ ranked : List (String × ℚ), (reportEntries ranked).length ≤ 20 := by
    intro ranked
    unfold reportEntries
    exact le_trans (List.length_filter_le _ _) (List.length_take_le _ _)
  refine ⟨hlen, fun f es hsome => ?_⟩
  unfold run at hsome
  by_cases hk : keywords.isEmpty
  · rw [if_pos hk] at hsome; cases hsome
  · rw [if_neg hk] at hsome
    by_cases hp : (collectPaths input_paths).isEmpty
    · rw [if_pos hp] at hsome; cases hsome
    · rw [if_neg hp] at hsome
      simp only [Option.some.injEq, Prod.mk.injEq] at hsome
      rw [← hsome.2]
      exact hlen _

/-- Witness instantiating `report_has_at_most_20_entries` on a one-file
corpus: the written report's entry list has at most 20 entries. -/
theorem report_has_at_most_20_entries_witness :
    (([] : List (Nat × String × ℚ)).length) ≤ 20 := by
  refine (report_has_at_most_20_entries (fun _ => ["a.pdf"])
    (fun _ _ => .ok [("k", 1)]) ["root"] ["k"] "out.txt" 0).2 "out.txt" [] ?_
  simp [run, rank_documents, docScore, sortDesc, insertDesc, reportEntries,
    List.filter, List.range_succ]

/-! ## Embedding of the text cache of `src/gui/search_panel.rs` -/

/-- `get_cache_path` (src/gui/search_panel.rs lines 915-920): the cache file
path is `cache_dir` joined with the source file's stem plus `.txt`; `stem`
is the oracle for `Path::file_stem`.  The key depends only on the source
*path* — never on its content, size or mtime. -/
def get_cache_path (stem : String → String) (pdf_path cache_dir : String) : String :=
  cache_dir ++ "/" ++ stem pdf_path ++ ".txt"

/-- `load_text_from_cache` (src/gui/search_panel.rs lines 928-930): return
the cache file's content if the file exists; `disk` is the filesystem
oracle for `fs::read_to_string(..).ok()`. -/
def load_text_from_cache (disk : String → Option String) (cache_path : String) :
    Option String :=
  disk cache_path

/-- The cached-text lookup performed per file by `load_directory_pdfs`
(src/gui/search_panel.rs lines 222-240): consult the on-disk cache at the
stem-derived path; only on a miss run the safe extractor (`extractSafe`,
returning what the *current* file content yields; an extraction error
degrades to empty text, line 237).  Returns the text used and whether
extraction ran. -/
def cachedTextLookup (stem : String → String) (disk : String → Option String)
    (extractSafe : String → Except String String) (pdf_path cache_dir : String) :
    String × Bool :=
  match load_text_from_cache disk (get_cache_path stem pdf_path cache_dir) with
  | some cached => (cached, false)
  | none =>
    match extractSafe pdf_path with
    | .ok t => (t, true)
    | .error _ => ("", true)

/-- **C2-counterexample.** A cache entry written when the file's text was
`"old"`; the source file has since changed so extraction would now yield
`"new"`; the lookup nevertheless returns the stale `"old"`: no size/mtime
fingerprint is consulted anywhere in `get_cache_path` or
`load_text_from_cache`. -/
theorem stale_cache_served_counterexample :
    (cachedTextLookup (fun _ => "doc") (fun _ => some "old") (fun _ => .ok "new")
        "doc.pdf" "/corpus/.pdfscan").1 = "old"
    ∧ ("old" : String) ≠ "new" :=
  ⟨rfl, by decide⟩

/-- **C2 (amended).** A cache entry's validity is decided solely by the
existence of a file at the stem-derived cache path: whenever that cache
file exists its content is returned verbatim, with no fingerprint check
against the source's size or mtime (so a changed source file *is* served
from the stale entry); the extractor runs only when no cache file exists. -/
theorem cache_lookup_checks_only_path (stem : String → String)
    (disk : String → Option String) (extractSafe : String → Except String String)
    (pdf_path cache_dir t : String)
    (hhit : disk (get_cache_path stem pdf_path cache_dir) = some t) :
    cachedTextLookup stem disk extractSafe pdf_path cache_dir = (t, false) := by
  unfold cachedTextLookup load_text_from_cache
  rw [hhit]

/-- Witness instantiating `cache_lookup_checks_only_path`: the lookup
returns the cached text although current extraction would yield different
text. -/
theorem cache_lookup_checks_only_path_witness :
    cachedTextLookup (fun _ => "doc") (fun _ => some "cached text")
        (fun _ => .ok "fresh text") "doc.pdf" "/corpus/.pdfscan"
      = ("cached text", false) :=
  cache_lookup_checks_only_path (fun _ => "doc") (fun _ => some "cached text")
    (fun _ => .ok "fresh text") "doc.pdf" "/corpus/.pdfscan" "cached text" rfl

/-- Session cache state for the directory search: the in-memory `pdf_cache`
map (`HashMap<PathBuf, String>`, modelled as an association list) and the
on-disk sidecar cache. -/
structure CacheState where
  memCache : List (String × String)
  disk : String → Option String

/-- In-memory map lookup, `self.pdf_cache.get(pdf_path)`. -/
def memLookup : List (String × String) → String → Option String
  | [], _ => none
  | (k, v) :: rest, p => if k = p then some v else memLookup rest p

/-- The per-file text acquisition of `perform_search` (src/gui/search_panel.rs
lines 344-377): in-memory cache first; then the disk cache (whose hit is
inserted into the in-memory cache, line 375); then safe extraction, whose
success is persisted to the disk cache (line 365) and inserted into the
in-memory cache; an extraction error skips the file (`continue`, line 369).
Returns the text (none = skipped), the new state, and the number of
extractor invocations. -/
def get_or_extract (stem : String → String)
    (extractSafe : String → Except String String) (cache_dir : String)
    (st : CacheState) (pdf_path : String) :
    Option String × CacheState × Nat :=
  match memLookup st.memCache pdf_path with
  | some t => (some t, st, 0)
  | none =>
    let cache_path := get_cache_path stem pdf_path cache_dir
    match load_text_from_cache st.disk cache_path with
    | some cached =>
      (some cached, { st with memCache := (pdf_path, cached) :: st.memCache }, 0)
    | none =>
      match extractSafe pdf_path with
      | .ok t =>
        (some t, { memCache := (pdf_path, t) :: st.memCache,
                   disk := fun q => if q = cache_path then some t else st.disk q }, 1)
      | .error _ => (none, st, 1)

/-- **C5.** For an unchanged readable file (the extractor oracle returns the
same successful text at both calls), looking the text up twice returns
identical text, the second lookup performs no extraction, and the two
lookups together invoke the extractor at most once: the second call is
served from the in-memory or on-disk cache. -/
theorem get_or_extract_idempotent (stem : String → String)
    (extractSafe : String → Except String String) (cache_dir p t : String)
    (st : CacheState) (hok : extractSafe p = .ok t) :
    (get_or_extract stem extractSafe cache_dir
        (get_or_extract stem extractSafe cache_dir st p).2.1 p).1
      = (get_or_extract stem extractSafe cache_dir st p).1
    ∧ (get_or_extract stem extractSafe cache_dir
        (get_or_extract stem extractSafe cache_dir st p).2.1 p).2.2 = 0
    ∧ (get_or_extract stem extractSafe cache_dir st p).2.2
        + (get_or_extract stem extractSafe cache_dir
            (get_or_extract stem extractSafe cache_dir st p).2.1 p).2.2 ≤ 1 := by
  unfold get_or_extract load_text_from_cache
  cases hm : memLookup st.memCache p with
  | some t0 => simp [hm]
  | none =>
    cases hd : st.disk (get_cache_path stem p cache_dir) with
    | some c => simp [hm, hd, memLookup]
    | none => simp [hm, hd, hok, memLookup]

/-- Witness instantiating `get_or_extract_idempotent` from an empty session
cache. -/
theorem get_or_extract_idempotent_witness :
    (get_or_extract (fun s => s) (fun _ => Except.ok "text") "d"
        (get_or_extract (fun s => s) (fun _ => Except.ok "text") "d"
          ⟨[], fun _ => none⟩ "a.pdf").2.1 "a.pdf").1
      = (get_or_extract (fun s => s) (fun _ => Except.ok "text") "d"
          ⟨[], fun _ => none⟩ "a.pdf").1
    ∧ (get_or_extract (fun s => s) (fun _ => Except.ok "text") "d"
        (get_or_extract (fun s => s) (fun _ => Except.ok "text") "d"
          ⟨[], fun _ => none⟩ "a.pdf").2.1 "a.pdf").2.2 = 0
    ∧ (get_or_extract (fun s => s) (fun _ => Except.ok "text") "d"
          ⟨[], fun _ => none⟩ "a.pdf").2.2
        + (get_or_extract (fun s => s) (fun _ => Except.ok "text") "d"
            (get_or_extract (fun s => s) (fun _ => Except.ok "text") "d"
              ⟨[], fun _ => none⟩ "a.pdf").2.1 "a.pdf").2.2 ≤ 1 :=
  get_or_extract_idempotent (fun s => s) (fun _ => Except.ok "text") "d" "a.pdf"
    "text" ⟨[], fun _ => none⟩ rfl

/-! ## Embedding of text-extraction fault handling -/

/-- Outcome of a call into the external `pdf_extract` parser on a given byte
input: a successful text, a recoverable error value, or a low-level runtime
panic (the source's own comment at src/gui/search_panel.rs line 907
attributes such panics to malformed font tables). -/
inductive ParseOutcome
  | ok (text : String)
  | err (msg : String)
  | panic
deriving Repr, DecidableEq

/-- A computation that either returns normally or lets a panic escape to
the caller (terminating the calling thread). -/
inductive PanicOr (α : Type)
  | ret (a : α)
  | panicked
deriving Repr, DecidableEq

/-- `std::panic::catch_unwind` around the parser call: a panic is caught
and becomes an error value instead of escaping. -/
def catch_unwind (parse : ParseOutcome) : Except Unit (Except String String) :=
  match parse with
  | .ok t => .ok (.ok t)
  | .err e => .ok (.error e)
  | .panic => .error ()

/-- `extract::extract_text_from_pdf` (src/extract.rs lines 112-124): parser
errors are converted to `Err(ExtractError::PdfError(..))`, but the parser
call is *not* wrapped in `catch_unwind`, so a parser panic escapes to the
caller. -/
def extract_text_from_pdf (parse : ParseOutcome) : PanicOr (Except String String) :=
  match parse with
  | .ok t => .ret (.ok t)
  | .err e => .ret (.error e)
  | .panic => .panicked

/-- `extract_text_from_pdf_safe` (src/gui/search_panel.rs lines 892-912):
the parser call runs under `catch_unwind`; parser errors and caught panics
both degrade to `Ok(String::new())`. -/
def extract_text_from_pdf_safe (parse : ParseOutcome) : PanicOr (Except String String) :=
  match catch_unwind parse with
  | .ok (.ok t) => .ret (.ok t)
  | .ok (.error _) => .ret (.ok "")
  | .error _ => .ret (.ok "")

/-- **C3 (evaluation at the failing input).** On a byte input whose parse
panics, the CLI extraction path `extract_text_from_pdf` (src/extract.rs,
no `catch_unwind`) lets the panic escape and terminate the calling thread,
contradicting the claim; the GUI path `extract_text_from_pdf_safe` behaves
as the claim requires — it never lets a fault escape and degrades every
fault to an empty-text success. -/
theorem extraction_panic_divergence :
    extract_text_from_pdf ParseOutcome.panic = PanicOr.panicked
    ∧ extract_text_from_pdf_safe ParseOutcome.panic = PanicOr.ret (Except.ok "")
    ∧ ∀ parse : ParseOutcome, ∃ t : String,
        extract_text_from_pdf_safe parse = PanicOr.ret (Except.ok t) := by
  refine ⟨rfl, rfl, fun parse => ?_⟩
  cases parse with
  | ok t => exact ⟨t, rfl⟩
  | err e => exact ⟨"", rfl⟩
  | panic => exact ⟨"", rfl⟩

/-! ## Embedding of the directory-indexer chunking (`load_directory_pdfs`) -/

/-- `const FILES_PER_THREAD: usize = 20` (src/gui/search_panel.rs line 199). -/
def FILES_PER_THREAD : Nat := 20

/-- `num_threads = (pdfs.len() + FILES_PER_THREAD - 1) / FILES_PER_THREAD`
(src/gui/search_panel.rs line 200). -/
def num_threads (n : Nat) : Nat := (n + FILES_PER_THREAD - 1) / FILES_PER_THREAD

/-- `start_idx = thread_idx * FILES_PER_THREAD` (line 213). -/
def chunk_start (t : Nat) : Nat := t * FILES_PER_THREAD

/-- `end_idx = (start_idx + FILES_PER_THREAD).min(pdfs.len())` (line 214). -/
def chunk_end (t n : Nat) : Nat := min (chunk_start t + FILES_PER_THREAD) n

/-- Worker `t` processes exactly the files with `start_idx ≤ idx < end_idx`
(the loop at line 219). -/
def assignedTo (t i n : Nat) : Prop := chunk_start t ≤ i ∧ i < chunk_end t n

/-- **C6.** Every enumerated file index `i < n` is assigned to exactly one
worker (worker `i / 20`, which exists among the spawned workers), so the
chunk ranges cover `0..n` without overlap; and the worker count is bounded
by one worker per 20 files rather than one thread per file (strictly fewer
workers than files as soon as there are at least 2 files). -/
theorem chunking_partitions_worklist (n i : Nat) (h : i < n) :
    (i / FILES_PER_THREAD < num_threads n
      ∧ assignedTo (i / FILES_PER_THREAD) i n
      ∧ ∀ t : Nat, assignedTo t i n → t = i / FILES_PER_THREAD)
    ∧ (2 ≤ n → num_threads n < n) := by
  simp only [num_threads, assignedTo, chunk_start, chunk_end, FILES_PER_THREAD,
    min_def]
  refine ⟨⟨?_, ⟨?_, ?_⟩, ?_⟩, ?_⟩
  · omega
  · omega
  · split <;> omega
  · intro t ht
    rcases ht with ⟨ht1, ht2⟩
    split at ht2 <;> omega
  · intro hn
    omega

/-- Witness instantiating `chunking_partitions_worklist` for a 45-file work
list and file index 37 (assigned to worker 1 of 3). -/
theorem chunking_partitions_worklist_witness :
    ((37 / FILES_PER_THREAD < num_threads 45
      ∧ assignedTo (37 / FILES_PER_THREAD) 37 45
      ∧ ∀ t : Nat, assignedTo t 37 45 → t = 37 / FILES_PER_THREAD)
    ∧ (2 ≤ 45 → num_threads 45 < 45)) :=
  chunking_partitions_worklist 45 37 (by omega)

/-! ## Embedding of `PdfViewer::render_page` (src/gui/pdf_viewer.rs) -/

/-- The viewer state relevant to page rendering: the `page_textures` cache
(`HashMap<usize, TextureHandle>`) and a running count of backend render
attempts. -/
structure ViewerState (Texture : Type) where
  page_textures : Nat → Option Texture
  backendCalls : Nat

/-- `render_fallback_page` (src/gui/pdf_viewer.rs lines 387-444): store the
fixed deterministic placeholder texture for the page. -/
def render_fallback_page {T : Type} (fallback : T) (st : ViewerState T) (p : Nat) :
    ViewerState T :=
  { st with page_textures := fun q => if q = p then some fallback else st.page_textures q }

/-- `PdfViewer::render_page` (src/gui/pdf_viewer.rs lines 254-380).
`hasPdfiumDoc` models `self.pdfium_document.is_some()`; `backend p` models
the whole Pdfium attempt for page `p` (`pages().get`, the `catch_unwind`
block and `render_with_config`), yielding `some texture` on success and
`none` on any error or caught panic, in which case the placeholder is
rendered instead.  The early return at lines 256-258 serves an
already-rendered page from `page_textures` without touching the backend.
The `p ≤ 65535` test models `u16::try_from(page_num)`. -/
def render_page {T : Type} (hasPdfiumDoc : Bool) (backend : Nat → Option T)
    (fallback : T) (st : ViewerState T) (p : Nat) : ViewerState T :=
  if (st.page_textures p).isSome then st
  else if hasPdfiumDoc then
    if p ≤ 65535 then
      let st1 : ViewerState T := { st with backendCalls := st.backendCalls + 1 }
      match backend p with
      | some tex =>
        { st1 with page_textures := fun q => if q = p then some tex else st.page_textures q }
      | none => render_fallback_page fallback st1 p
    else render_fallback_page fallback st p
  else render_fallback_page fallback st p

lemma render_page_cached {T : Type} (hasPdfiumDoc : Bool) (backend : Nat → Option T)
    (fallback : T) (st : ViewerState T) (p : Nat)
    (h : (st.page_textures p).isSome) :
    render_page hasPdfiumDoc backend fallback st p = st := by
  unfold render_page
  rw [if_pos h]

lemma render_page_textures_some {T : Type} (backend : Nat → Option T)
    (fallback : T) (st : ViewerState T) (p : Nat) (hp : p ≤ 65535) :
    ((render_page true backend fallback st p).page_textures p).isSome := by
  unfold render_page render_fallback_page
  by_cases h : (st.page_textures p).isSome
  · rw [if_pos h]; exact h
  · rw [if_neg h, if_pos rfl, if_pos hp]
    cases backend p <;> simp

/-- **C8.** `render_page` takes `&mut self`, so Rust's exclusive borrow
serializes overlapping calls; `N` requests for one page are modelled as the
`N`-fold sequential composition.  Starting from a state with no texture for
the page (and a Pdfium document open, page index within `u16`): some bitmap
is stored by the first call, exactly one backend invocation happens across
all `N ≥ 1` calls (the counter rises once), and every later call leaves the
state unchanged, so all callers observe that same stored bitmap. -/
theorem render_page_single_backend_invocation {T : Type} (backend : Nat → Option T)
    (fallback : T) (st0 : ViewerState T) (p : Nat)
    (h0 : st0.page_textures p = none) (hp : p ≤ 65535) :
    ∃ tex : T,
      ((fun s => render_page true backend fallback s p) st0).page_textures p = some tex
      ∧ ((fun s => render_page true backend fallback s p) st0).backendCalls
          = st0.backendCalls + 1
      ∧ ∀ n : Nat, 1 ≤ n →
          (fun s => render_page true backend fallback s p)^[n] st0
            = (fun s => render_page true backend fallback s p) st0 := by
  have hsome := render_page_textures_some backend fallback st0 p hp
  have hfix : ∀ n : Nat, 1 ≤ n →
      (fun s => render_page true backend fallback s p)^[n] st0
        = (fun s => render_page true backend fallback s p) st0 := by
    intro n hn
    induction n with
    | zero => omega
    | succ m ih =>
      rcases Nat.eq_or_lt_of_le hn with h1 | h1
      · rw [← h1]; simp
      · rw [Function.iterate_succ_apply', ih (by omega)]
        exact render_page_cached true backend fallback _ p hsome
  rcases Option.isSome_iff_exists.mp hsome with ⟨tex, htex⟩
  refine ⟨tex, htex, ?_, hfix⟩
  show (render_page true backend fallback st0 p).backendCalls = st0.backendCalls + 1
  unfold render_page
  rw [if_neg (by rw [h0]; simp), if_pos rfl, if_pos hp]
  cases backend p <;> simp [render_fallback_page]

/-- Witness instantiating `render_page_single_backend_invocation` with a
backend that renders page 0 to bitmap 7, starting from an empty texture
cache. -/
theorem render_page_single_backend_invocation_witness :
    ∃ tex : Nat,
      ((fun s => render_page true (fun _ => some 7) 0 s 0)
          (ViewerState.mk (fun _ => none) 0)).page_textures 0 = some tex
      ∧ ((fun s => render_page true (fun _ => some 7) 0 s 0)
          (ViewerState.mk (fun _ => none) 0)).backendCalls
          = (ViewerState.mk (fun _ => (none : Option Nat)) 0).backendCalls + 1
      ∧ ∀ n : Nat, 1 ≤ n →
          (fun s => render_page true (fun _ => some 7) 0 s 0)^[n]
              (ViewerState.mk (fun _ => none) 0)
            = (fun s => render_page true (fun _ => some 7) 0 s 0)
              (ViewerState.mk (fun _ => none) 0) :=
  render_page_single_backend_invocation (fun _ => some 7) 0
    (ViewerState.mk (fun _ => none) 0) 0 rfl (by omega)

/-! ## Embedding of `SearchPanel::search_in_text` (src/gui/search_panel.rs) -/

/-- UTF-8 byte length of a character list (Rust `str::len`). -/
def utf8Len (l : List Char) : Nat := (l.map Char.utf8Size).sum

/-- `str::char_indices`: each character paired with its UTF-8 byte offset,
starting from `off`. -/
def charIndicesAux (off : Nat) : List Char → List (Nat × Char)
  | [] => []
  | c :: cs => (off, c) :: charIndicesAux (off + c.utf8Size) cs

/-- `text.char_indices().collect()` (src/gui/search_panel.rs line 474). -/
def char_indices (text : List Char) : List (Nat × Char) := charIndicesAux 0 text

/-- `struct MatchResult` (src/gui/search_panel.rs lines 35-38): the context
slice around a hit and the byte position of the hit in the original text. -/
structure MatchResult where
  text : List Char
  position : Nat
deriving Repr, DecidableEq

/-- The inner character-comparison loop (lines 487-492): the query matches
at `i` iff every query character equals the search character at `i + k`,
with the explicit out-of-range guard `start_char_idx + i >= search_chars.len()`. -/
def matchesAt (sc qc : List Char) (i : Nat) : Bool :=
  (List.range qc.length).all fun k =>
    decide (i + k < sc.length) && (sc.getD (i + k) default == qc.getD k default)

/-- `text.get(context_start_byte..context_end_byte).unwrap_or("")` (lines
525-531): the characters of the original text whose byte offsets lie in the
given range (both range ends are character boundaries when taken from
`char_indices`). -/
def byteSlice (text : List Char) (s e : Nat) : List Char :=
  ((char_indices text).filter fun pc => decide (s ≤ pc.1) && decide (pc.1 < e)).map
    Prod.snd

/-- The `while` loop of `search_in_text` (lines 483-543), with an explicit
fuel bound on the iteration count (the loop advances `start_char_idx` by at
least one character per iteration, so `search_chars.len() + 1` iterations
always suffice — `searchLoop_fuel_irrelevant`).  `tc` is `text_chars`,
`fullLen` the byte length of the original text, `sc`/`qc` the search and
query characters.  The byte position falls back to `text.len()` when the
character index exceeds `text_chars` (lines 497-501); the context window is
40 characters on each side with all bounds clamped (lines 503-531). -/
def searchLoop (tc : List (Nat × Char)) (fullLen : Nat) (text sc qc : List Char) :
    Nat → Nat → List MatchResult
  | 0, _ => []
  | fuel + 1, i =>
    if i ≤ sc.length - qc.length then
      if matchesAt sc qc i then
        let byte_pos := if i < tc.length then (tc.getD i (0, default)).1 else fullLen
        let context_start_char := i - 40
        let context_end_char := min (i + qc.length + 40) tc.length
        let context_start_byte :=
          if context_start_char < tc.length then (tc.getD context_start_char (0, default)).1
          else 0
        let context_end_byte :=
          if context_end_char < tc.length then (tc.getD context_end_char (0, default)).1
          else fullLen
        let context :=
          if context_start_byte < context_end_byte ∧ context_end_byte ≤ fullLen then
            byteSlice text context_start_byte context_end_byte
          else []
        ⟨context, byte_pos⟩ :: searchLoop tc fullLen text sc qc fuel (i + qc.length)
      else searchLoop tc fullLen text sc qc fuel (i + 1)
    else []

/-- `SearchPanel::search_in_text` (lines 448-546) with the loop fuel made
explicit.  `lowercase` is the oracle for Rust's Unicode `str::to_lowercase`
(which may change the character count, hence the independent guards on
`text_chars` and `search_chars`). -/
def search_in_textFuel (lowercase : List Char → List Char) (case_sensitive : Bool)
    (search_query text : List Char) (fuel : Nat) : List MatchResult :=
  if search_query.isEmpty then []
  else
    let query := if case_sensitive then search_query else lowercase search_query
    if query.isEmpty then []
    else
      let search_text := if case_sensitive then text else lowercase text
      let text_chars := char_indices text
      if query.isEmpty ∨ search_text.length < query.length then []
      else searchLoop text_chars (utf8Len text) text search_text query fuel 0

/-- `SearchPanel::search_in_text` (src/gui/search_panel.rs lines 448-546):
the loop needs at most `search_chars.len() + 1` iterations. -/
def search_in_text (lowercase : List Char → List Char) (case_sensitive : Bool)
    (search_query text : List Char) : List MatchResult :=
  search_in_textFuel lowercase case_sensitive search_query text
    ((if case_sensitive then text else lowercase text).length + 1)

lemma charIndicesAux_length (l : List Char) : ∀ off, (charIndicesAux off l).length = l.length := by
  induction l with
  | nil => intro off; rfl
  | cons c cs ih => intro off; simp [charIndicesAux, ih]

lemma charIndicesAux_getD_fst (l : List Char) :
    ∀ (off i : Nat), i < l.length →
      ((charIndicesAux off l).getD i (0, default)).1 = off + utf8Len (l.take i) := by
  induction l with
  | nil => intro off i h; simp at h
  | cons c cs ih =>
    intro off i h
    cases i with
    | zero => simp [charIndicesAux, utf8Len]
    | succ i =>
      have := ih (off + c.utf8Size) i (by simpa using h)
      simp only [charIndicesAux, List.getD_cons_succ, List.take_succ_cons]
      rw [this]
      simp [utf8Len]
      ring

lemma utf8Len_take_le (l : List Char) (k : Nat) : utf8Len (l.take k) ≤ utf8Len l := by
  conv_rhs => rw [← List.take_append_drop k l]
  unfold utf8Len
  rw [List.map_append, List.sum_append]
  exact Nat.le_add_right _ _

lemma searchLoop_position_boundary (text sc qc : List Char) :
    ∀ (fuel i : Nat),
      ∀ m ∈ searchLoop (char_indices text) (utf8Len text) text sc qc fuel i,
        ∃ k, k ≤ text.length ∧ m.position = utf8Len (text.take k) := by
  intro fuel
  induction fuel with
  | zero => intro i m hm; simp [searchLoop] at hm
  | succ fuel ih =>
    intro i m hm
    unfold searchLoop at hm
    by_cases hguard : i ≤ sc.length - qc.length
    · rw [if_pos hguard] at hm
      by_cases hmat : matchesAt sc qc i
      · rw [if_pos hmat] at hm
        rcases List.mem_cons.mp hm with rfl | hm
        · by_cases hi : i < (char_indices text).length
          · refine ⟨i, ?_, ?_⟩
            · have := charIndicesAux_length text 0
              unfold char_indices at hi
              omega
            · show (if i < (char_indices text).length
                  then ((char_indices text).getD i (0, default)).1
                  else utf8Len text) = _
              rw [if_pos hi]
              have hlen : i < text.length := by
                have := charIndicesAux_length text 0
                unfold char_indices at hi
                omega
              unfold char_indices
              rw [charIndicesAux_getD_fst text 0 i hlen]
              omega
          · refine ⟨text.length, le_refl _, ?_⟩
            show (if i < (char_indices text).length
                then ((char_indices text).getD i (0, default)).1
                else utf8Len text) = _
            rw [if_neg hi, List.take_length]
        · exact ih (i + qc.length) m hm
      · rw [if_neg hmat] at hm
        exact ih (i + 1) m hm
    · rw [if_neg hguard] at hm
      simp at hm

lemma searchLoop_fuel_irrelevant (tc : List (Nat × Char)) (fullLen : Nat)
    (text sc qc : List Char) (hq : qc ≠ []) :
    ∀ (f₁ f₂ i : Nat), sc.length + 1 - i ≤ f₁ → sc.length + 1 - i ≤ f₂ →
      searchLoop tc fullLen text sc qc f₁ i = searchLoop tc fullLen text sc qc f₂ i := by
  have hq1 : 1 ≤ qc.length := by
    cases qc with
    | nil => exact absurd rfl hq
    | cons c cs => simp
  intro f₁
  induction f₁ with
  | zero =>
    intro f₂ i h1 h2
    have hi : sc.length + 1 ≤ i := by omega
    cases f₂ with
    | zero => rfl
    | succ g₂ =>
      show searchLoop tc fullLen text sc qc 0 i = _
      unfold searchLoop
      rw [if_neg (by omega)]
  | succ g₁ ih =>
    intro f₂ i h1 h2
    by_cases hguard : i ≤ sc.length - qc.length
    · cases f₂ with
      | zero => omega
      | succ g₂ =>
        show searchLoop tc fullLen text sc qc (g₁ + 1) i
            = searchLoop tc fullLen text sc qc (g₂ + 1) i
        unfold searchLoop
        rw [if_pos hguard, if_pos hguard]
        by_cases hmat : matchesAt sc qc i
        · rw [if_pos hmat, if_pos hmat]
          have := ih g₂ (i + qc.length) (by omega) (by omega)
          rw [this]
        · rw [if_neg hmat, if_neg hmat]
          exact ih g₂ (i + 1) (by omega) (by omega)
    · cases f₂ with
      | zero =>
        show searchLoop tc fullLen text sc qc (g₁ + 1) i = []
        unfold searchLoop
        rw [if_neg hguard]
      | succ g₂ =>
        show searchLoop tc fullLen text sc qc (g₁ + 1) i
            = searchLoop tc fullLen text sc qc (g₂ + 1) i
        unfold searchLoop
        rw [if_neg hguard, if_neg hguard]

/-- **C10.** The in-text match search terminates: its `while` loop needs at
most `search_chars.len() + 1` iterations, so giving the loop any fuel at
least that bound yields the same result (`search_in_text` is a total
function of its inputs).  Moreover every returned match position is a byte
offset at a character boundary of the original text — `utf8Len` of some
prefix — and is at most the text's byte length, for every text, query,
case-sensitivity flag and lowercasing behaviour. -/
theorem search_in_text_terminates_with_boundary_positions
    (lowercase : List Char → List Char) (case_sensitive : Bool)
    (search_query text : List Char) :
    (∀ fuel, (if case_sensitive then text else lowercase text).length + 1 ≤ fuel →
        search_in_textFuel lowercase case_sensitive search_query text fuel
          = search_in_text lowercase case_sensitive search_query text)
    ∧ ∀ m ∈ search_in_text lowercase case_sensitive search_query text,
        (∃ k, k ≤ text.length ∧ m.position = utf8Len (text.take k))
        ∧ m.position ≤ utf8Len text := by
  constructor
  · intro fuel hfuel
    unfold search_in_text search_in_textFuel
    by_cases h1 : search_query.isEmpty
    · rw [if_pos h1, if_pos h1]
    · rw [if_neg h1, if_neg h1]
      by_cases h2 : (if case_sensitive then search_query else lowercase search_query).isEmpty
      · rw [if_pos h2, if_pos h2]
      · rw [if_neg h2, if_neg h2]
        by_cases h3 : (if case_sensitive then search_query else lowercase search_query).isEmpty
            ∨ (if case_sensitive then text else lowercase text).length
              < (if case_sensitive then search_query else lowercase search_query).length
        · rw [if_pos h3, if_pos h3]
        · rw [if_neg h3, if_neg h3]
          exact searchLoop_fuel_irrelevant _ _ _ _ _
            (by simpa using (not_or.mp h3).1) fuel _ 0 (by omega) (by omega)
  · intro m hm
    unfold search_in_text search_in_textFuel at hm
    by_cases h1 : search_query.isEmpty
    · rw [if_pos h1] at hm; simp at hm
    · rw [if_neg h1] at hm
      by_cases h2 : (if case_sensitive then search_query else lowercase search_query).isEmpty
      · rw [if_pos h2] at hm; simp at hm
      · rw [if_neg h2] at hm
        by_cases h3 : (if case_sensitive then search_query else lowercase search_query).isEmpty
            ∨ (if case_sensitive then text else lowercase text).length
              < (if case_sensitive then search_query else lowercase search_query).length
        · rw [if_pos h3] at hm; simp at hm
        · rw [if_neg h3] at hm
          rcases searchLoop_position_boundary text _ _ _ 0 m hm with ⟨k, hk, hpos⟩
          exact ⟨⟨k, hk, hpos⟩, hpos ▸ utf8Len_take_le text k⟩

/-- Witness instantiating the C10 theorem on the case-sensitive search for
`"b"` in `"ab"`: the single match sits at byte position 1, a character
boundary, and extra fuel does not change the result. -/
theorem search_in_text_boundary_witness :
    search_in_textFuel (fun l => l) true [Char.ofNat 98] [Char.ofNat 97, Char.ofNat 98] 10
        = search_in_text (fun l => l) true [Char.ofNat 98] [Char.ofNat 97, Char.ofNat 98]
    ∧ ((∃ k, k ≤ ([Char.ofNat 97, Char.ofNat 98] : List Char).length
          ∧ (MatchResult.mk [Char.ofNat 97, Char.ofNat 98] 1).position
              = utf8Len (([Char.ofNat 97, Char.ofNat 98] : List Char).take k))
        ∧ (MatchResult.mk [Char.ofNat 97, Char.ofNat 98] 1).position
            ≤ utf8Len ([Char.ofNat 97, Char.ofNat 98] : List Char)) :=
  ⟨(search_in_text_terminates_with_boundary_positions (fun l => l) true
      [Char.ofNat 98] [Char.ofNat 97, Char.ofNat 98]).1 10 (by decide),
   (search_in_text_terminates_with_boundary_positions (fun l => l) true
      [Char.ofNat 98] [Char.ofNat 97, Char.ofNat 98]).2
      (MatchResult.mk [Char.ofNat 97, Char.ofNat 98] 1) (by decide)⟩

end PdfScan
